import Mathlib

/-!
# Verification of the pygeoops centerline engine

This file gives a shallow embedding of `pygeoops/_centerline.py` (the
centerline orchestrator and the branch pruner) together with the pieces of
`pygeoops/_general.py` it relies on (`format_short`), and proves the stated
properties about them.

Modelling conventions:
* Python floats are modelled as rationals (`ℚ`); every IEEE-754 double is a
  rational number, and none of the verified control flow depends on rounding.
* The shapely/GEOS geometry kernel is an external dependency of the
  repository (the spec treats it as the external "Geometry Kernel"
  collaborator), so its operations are fields of a `Kernel` structure.  The
  few facts the code relies on (spatial-index completeness, line-merge not
  increasing the number of parts) are bundled as fields whose truth for the
  real kernel is argued in their doc strings; concrete executable instances
  are provided below for evaluation.
* Fallible kernel operations return `Except PyErr`, mirroring Python
  exceptions; `PyErr` records the exception class name and message.
-/

namespace PyGeoOps

/-- A 2D coordinate, as a pair of rationals (a Python `(float, float)`). -/
abbrev Point : Type := ℚ × ℚ

/-- The closed tagged-variant model of the shapely geometry kinds the
centerline engine touches.  Multi-geometries carry their coordinate payloads
directly; only `geometryCollection` nests. -/
inductive Geom : Type where
  | point (p : Point)
  | lineString (coords : List Point)
  | linearRing (coords : List Point)
  | polygon (exterior : List Point) (holes : List (List Point))
  | multiPoint (points : List Point)
  | multiLineString (lines : List (List Point))
  | multiPolygon (polys : List (List Point × List (List Point)))
  | geometryCollection (parts : List Geom)

mutual

/-- `shapely.get_coordinates`: all coordinates of a geometry, in order. -/
def getCoordinates : Geom → List Point
  | .point p => [p]
  | .lineString cs => cs
  | .linearRing cs => cs
  | .polygon ext holes => ext ++ holes.flatten
  | .multiPoint ps => ps
  | .multiLineString ls => ls.flatten
  | .multiPolygon polys => (polys.map (fun pr => pr.1 ++ pr.2.flatten)).flatten
  | .geometryCollection parts => getCoordinatesList parts

/-- `shapely.get_coordinates` over the members of a collection. -/
def getCoordinatesList : List Geom → List Point
  | [] => []
  | g :: gs => getCoordinates g ++ getCoordinatesList gs

end

/-- `shapely.get_num_coordinates`. -/
def numCoords (g : Geom) : Nat := (getCoordinates g).length

/-- GEOS `is_empty`: a geometry is empty iff it has no coordinates. -/
def isEmptyG (g : Geom) : Bool := (getCoordinates g).isEmpty

/-- `shapely.get_parts`: the components of a multi-geometry (a singleton
for a single geometry). -/
def getParts : Geom → List Geom
  | .multiPoint ps => ps.map Geom.point
  | .multiLineString ls => ls.map Geom.lineString
  | .multiPolygon polys => polys.map (fun pr => Geom.polygon pr.1 pr.2)
  | .geometryCollection parts => parts
  | g => [g]

/-- `isinstance(g, shapely.LineString)`; in shapely `LinearRing` is a
subclass of `LineString`. -/
def isLineStringB : Geom → Bool
  | .lineString _ => true
  | .linearRing _ => true
  | _ => false

/-- First coordinate of a geometry (`shapely.get_coordinates(g)[0]`); the
code only evaluates this on geometries that have at least one coordinate. -/
def startPt (g : Geom) : Point := (getCoordinates g).headD (0, 0)

/-- Last coordinate of a geometry (`shapely.get_coordinates(g)[-1]`). -/
def endPt (g : Geom) : Point := (getCoordinates g).getLastD (0, 0)

/-! ## `format_short` from `pygeoops/_general.py` -/

/-- Rendering of a float in a Python f-string, at the precision of the
rational model. -/
def fmtQ (q : ℚ) : String := toString q

/-- Rendering of `f"{p.x} {p.y}"`. -/
def fmtPt (p : Point) : String := fmtQ p.1 ++ " " ++ fmtQ p.2

/-- The `while isinstance(geometry, GeometryCollection)` loop of
`format_short`: accumulate one `"GEOMETRYCOLLECTION("` per nesting level,
remember whether any level had more than one member, and return the first
non-collection geometry reached (`shapely.get_geometry(g, 0)` of an empty
collection is `None`). -/
def gcUnwrap : Geom → String → Bool → (String × Bool × Option Geom)
  | .geometryCollection parts, acc, multi =>
    let multi := multi || decide (1 < parts.length)
    let acc := acc ++ "GEOMETRYCOLLECTION("
    match hhd : parts.head? with
    | some g => gcUnwrap g acc multi
    | none => (acc, multi, none)
  | g, acc, multi => (acc, multi, some g)
decreasing_by
  have hm : g ∈ parts := List.mem_of_mem_head? hhd
  have := List.sizeOf_lt_of_mem hm
  simp only [Geom.geometryCollection.sizeOf_spec]
  omega

/-- The non-collection cases of `format_short` (the early returns of the
source function).  The `geometryCollection` case is unreachable here: it is
handled by `format_short` itself via `gcUnwrap`. -/
def format_short_nonGC : Option Geom → String
  | none => "None"
  | some (.point p) => "POINT(" ++ fmtPt p ++ ")"
  | some (.lineString cs) => "LINESTRING(" ++ fmtPt (cs.headD (0, 0)) ++ ", ...)"
  | some (.linearRing cs) => "LINEARRING(" ++ fmtPt (cs.headD (0, 0)) ++ ", ...)"
  | some (.polygon ext _) => "POLYGON(" ++ fmtPt (ext.headD (0, 0)) ++ ", ...)"
  | some (.multiPolygon polys) =>
    "MULTIPOLYGON((" ++ fmtPt (((polys.headD ([], [])).1).headD (0, 0)) ++ ", ...)"
  | some (.multiPoint ps) =>
    if 1 < ps.length then "MULTIPOINT(" ++ fmtPt (ps.headD (0, 0)) ++ ", ...)"
    else "MULTIPOINT(" ++ fmtPt (ps.headD (0, 0)) ++ ")"
  | some (.multiLineString ls) =>
    "MULTILINESTRING((" ++ fmtPt ((ls.headD []).headD (0, 0)) ++ ", ...)"
  | some (.geometryCollection _) => ""

/-- `format_short` from `pygeoops/_general.py`: formats a geometry with only
the first point included, for error messages. -/
def format_short (geometry : Option Geom) : String :=
  match geometry with
  | some (.geometryCollection parts) =>
    let (acc, multi, inner) := gcUnwrap (.geometryCollection parts) "" false
    let result := acc ++ format_short_nonGC inner
    if result.endsWith ", ...)" then result
    else result ++ (if multi then ", ...)" else ")")
  | g => format_short_nonGC g

/-! ## Python exceptions -/

/-- A Python exception: the class name (`type(ex).__name__`-like tag used to
re-raise `type(ex)(...)`) and the message (`str(ex)`). -/
structure PyErr : Type where
  ty : String
  msg : String
deriving DecidableEq, Repr

/-- Python's `str.lower()` (on the ASCII kernel messages involved). -/
def pyLower (s : String) : String := ⟨s.toList.map Char.toLower⟩

/-- Python's `pattern in s` on strings: `pattern` occurs as a substring. -/
def containsSub (s pattern : String) : Bool :=
  (List.range (s.toList.length + 1)).any
    (fun i => pattern.toList.isPrefixOf (s.toList.drop i))

/-! ## The Geometry Kernel (shapely/GEOS), an external collaborator

The repository calls into shapely/GEOS for all numeric geometry work; the
spec (§6) treats these operations as an externally supplied capability.  The
`Kernel` structure bundles the operations used by the centerline engine,
together with the only behavioural facts about them that the engine's
correctness arguments rely on (each true of the real kernel, see the
individual doc strings). -/

structure Kernel : Type where
  /-- `geometry.length` and `shapely.length`. -/
  glength : Geom → ℚ
  /-- `geometry.area`. -/
  garea : Geom → ℚ
  /-- `geometry.boundary`. -/
  boundary : Geom → Geom
  /-- `math.sqrt`. -/
  msqrt : ℚ → ℚ
  /-- `shapely.segmentize(geometry, max_segment_length)`. -/
  segmentize : Geom → ℚ → Except PyErr Geom
  /-- `shapely.remove_repeated_points(geometry, tolerance)`. -/
  remove_repeated_points : Geom → ℚ → Except PyErr Geom
  /-- `shapely.set_precision(geometry, grid_size)`. -/
  set_precision : Geom → ℚ → Except PyErr Geom
  /-- `geometry.is_valid`. -/
  is_valid : Geom → Bool
  /-- `shapely.voronoi_polygons(geometry, only_edges=...)`. -/
  voronoi_polygons : Geom → Bool → Except PyErr Geom
  /-- `shapely.contains(a, b)` (with `a` prepared; preparation is a pure
  performance hint). -/
  containsB : Geom → Geom → Bool
  /-- `shapely.intersection(a, b)`. -/
  intersectionOp : Geom → Geom → Except PyErr Geom
  /-- `shapely.line_merge(geometry)`. -/
  lineMerge : Geom → Geom
  /-- `shapely.simplify(geometry, tolerance)` (Douglas-Peucker). -/
  simplifyOp : Geom → ℚ → Except PyErr Geom
  /-- `shapely.normalize(geometry)`. -/
  normalizeG : Geom → Geom
  /-- `shapely.intersects(geometry, shapely.Point(p))`. -/
  intersectsPt : Geom → Point → Bool
  /-- `shapely.STRtree(parts).query(shapely.Point(p))`, as a list of indices
  into `parts`. -/
  strQuery : List Geom → Point → List Nat
  /-- `pygeoops._extend_line.extend_line_to_geometry(line, geometry)`; an
  independent module of the repository, treated as a collaborator (spec
  §4.5). -/
  extendLine : Geom → Geom → Except PyErr Geom
  /-- STRtree queries return valid indices into the indexed list. -/
  strQuery_lt : ∀ parts p i, i ∈ strQuery parts p → i < parts.length
  /-- STRtree candidate sets are complete: an indexed geometry that actually
  intersects the query point is among the candidates (its bounding box then
  certainly overlaps the point). -/
  strQuery_complete : ∀ parts p i (h : i < parts.length),
    intersectsPt parts[i] p = true → i ∈ strQuery parts p
  /-- An indexed geometry is a candidate for queries at each of its own
  coordinates (its bounding box contains all of its coordinates). -/
  strQuery_coords : ∀ parts p i (h : i < parts.length),
    p ∈ getCoordinates parts[i] → i ∈ strQuery parts p
  /-- `line_merge` only fuses contiguous lines: it never increases the
  number of parts of a multi-linestring. -/
  lineMerge_le : ∀ ls : List (List Point),
    (getParts (lineMerge (.multiLineString ls))).length ≤ ls.length

/-! ## Width estimation (`_average_width`, `_compactness`) -/

/-- `math.pi`, exactly as the IEEE-754 double Python uses. -/
def piQ : ℚ := 884279719003555 / 281474976710656

/-- `_average_width` from `pygeoops/_centerline.py`. -/
def _average_width (k : Kernel) (geom : Geom) : ℚ :=
  k.glength geom / 4 - k.msqrt (max ((k.glength geom / 4) ^ 2 - k.garea geom) 0)

/-- `_compactness` (Polsby-Popper index) from `pygeoops/_centerline.py`. -/
def _compactness (k : Kernel) (geom : Geom) : ℚ :=
  (4 * piQ * k.garea geom) / (k.glength (k.boundary geom)) ^ 2

/-! ## The branch pruner (`_remove_short_branches`,
`_remove_short_branches_notempty`) -/

/-- The adjacency check `_remove_short_branches` performs for one endpoint of
`line_cur` (index `selfIdx`): query the spatial index, and if more than one
candidate is returned (one is always the line itself), look for another line
that really intersects the point. -/
def adjacency (k : Kernel) (parts : List Geom) (selfIdx : Nat) (p : Point) : Bool :=
  let neighbour_idxs := k.strQuery parts p
  if 1 < neighbour_idxs.length then
    neighbour_idxs.any (fun j =>
      decide (j ≠ selfIdx) && k.intersectsPt (parts.getD j (.lineString [])) p)
  else false

/-- The body of the `for line_cur_idx, line_cur in linetuples_sorted` loop:
walk the length-sorted `(index, part)` pairs and collect
`line_parts_to_remove`.  A part is marked when it is shorter than
`min_branch_length` and exactly one of its endpoints is adjacent to another
part; in `remove_one_by_one` mode the loop breaks after the first mark. -/
def passMarkGo (k : Kernel) (parts : List Geom) (min_branch_length : ℚ)
    (remove_one_by_one : Bool) :
    List (Nat × Geom) → List Nat → List Nat
  | [], acc => acc
  | (line_cur_idx, line_cur) :: rest, acc =>
    if min_branch_length ≤ k.glength line_cur then
      passMarkGo k parts min_branch_length remove_one_by_one rest acc
    else
      let startpoint_adjacency := adjacency k parts line_cur_idx (startPt line_cur)
      let endpoint_adjacency := adjacency k parts line_cur_idx (endPt line_cur)
      if startpoint_adjacency = false ∧ endpoint_adjacency = false then
        passMarkGo k parts min_branch_length remove_one_by_one rest acc
      else if startpoint_adjacency ∧ endpoint_adjacency then
        passMarkGo k parts min_branch_length remove_one_by_one rest acc
      else if remove_one_by_one then acc ++ [line_cur_idx]
      else passMarkGo k parts min_branch_length remove_one_by_one rest
        (acc ++ [line_cur_idx])

/-- One classification pass of `_remove_short_branches`: sort the parts by
length (`sorted(enumerate(parts), key=...)`) and collect the indices to
remove. -/
def passMark (k : Kernel) (parts : List Geom) (min_branch_length : ℚ)
    (remove_one_by_one : Bool) : List Nat :=
  passMarkGo k parts min_branch_length remove_one_by_one
    (parts.enum.mergeSort (fun a b => decide (k.glength a.2 ≤ k.glength b.2))) []

/-- `np.delete(parts, idxs, axis=0)`: drop the listed positions. -/
def npDelete (parts : List Geom) (idxs : List Nat) : List Geom :=
  (parts.enum.filter (fun pr => decide (pr.1 ∉ idxs))).map Prod.snd

/-- `shapely.multilinestrings(lines)`: build a multi-linestring from
linestring parts (the pruner only ever passes linestrings). -/
def multilinestringsOf (gs : List Geom) : Geom :=
  .multiLineString (gs.map (fun g =>
    match g with
    | .lineString cs => cs
    | .linearRing cs => cs
    | g => getCoordinates g))

/-- Every marked index came from `enumerate(parts)`, so it is in range. -/
theorem passMarkGo_lt (k : Kernel) (parts : List Geom) (m : ℚ) (b : Bool)
    (l : List (Nat × Geom)) (acc : List Nat)
    (hl : ∀ pr ∈ l, pr.1 < parts.length) (hacc : ∀ j ∈ acc, j < parts.length) :
    ∀ i ∈ passMarkGo k parts m b l acc, i < parts.length := by
  induction l generalizing acc with
  | nil => simpa [passMarkGo] using hacc
  | cons hd tl ih =>
    obtain ⟨idx, cur⟩ := hd
    have hidx : idx < parts.length := hl (idx, cur) (List.mem_cons_self _ _)
    have htl : ∀ pr ∈ tl, pr.1 < parts.length :=
      fun pr hpr => hl pr (List.mem_cons_of_mem _ hpr)
    have hacc' : ∀ j ∈ acc ++ [idx], j < parts.length := by
      intro j hj
      rcases List.mem_append.mp hj with hj | hj
      · exact hacc j hj
      · simpa using List.mem_singleton.mp hj ▸ hidx
    simp only [passMarkGo]
    split
    · exact ih acc htl hacc
    · split
      · exact ih acc htl hacc
      · split
        · exact ih acc htl hacc
        · split
          · exact fun i hi => hacc' i hi
          · exact ih (acc ++ [idx]) htl hacc'

/-- Marked indices are in range. -/
theorem passMark_lt (k : Kernel) (parts : List Geom) (m : ℚ) (b : Bool) :
    ∀ i ∈ passMark k parts m b, i < parts.length := by
  refine passMarkGo_lt k parts m b _ [] ?_ (by simp)
  intro pr hpr
  have hpr' : pr ∈ parts.enum := List.mem_mergeSort.mp hpr
  have := List.mem_enum_iff_getElem?.mp hpr'
  exact (List.getElem?_eq_some.mp this).1

/-- Deleting a nonempty set of in-range positions strictly shrinks a list. -/
theorem npDelete_length_lt (parts : List Geom) (idxs : List Nat)
    (h : ∃ i ∈ idxs, i < parts.length) :
    (npDelete parts idxs).length < parts.length := by
  obtain ⟨i, hi, hlt⟩ := h
  unfold npDelete
  rw [List.length_map]
  have : (i, parts[i]) ∈ parts.enum :=
    List.mem_enum_iff_getElem?.mpr (List.getElem?_eq_getElem hlt)
  calc (parts.enum.filter (fun pr => decide (pr.1 ∉ idxs))).length
      < parts.enum.length := by
        refine List.length_filter_lt_length_iff_exists.mpr ⟨(i, parts[i]), this, ?_⟩
        simp [hi]
    _ = parts.length := List.enum_length

/-- The `while isinstance(line_cleaned, MultiLineString)` loop of
`_remove_short_branches`: classify, remove the marked parts, line-merge, and
repeat until nothing was removed (or the geometry is no longer a
multi-linestring). -/
def pruneLoop (k : Kernel) (min_branch_length : ℚ) (remove_one_by_one : Bool)
    (line_cleaned : Geom) : Geom :=
  match line_cleaned with
  | .multiLineString ls =>
    let line_cleaned_parts := getParts (.multiLineString ls)
    let line_parts_to_remove :=
      passMark k line_cleaned_parts min_branch_length remove_one_by_one
    if line_parts_to_remove.isEmpty then .multiLineString ls
    else
      pruneLoop k min_branch_length remove_one_by_one
        (k.lineMerge (multilinestringsOf
          (npDelete line_cleaned_parts line_parts_to_remove)))
  | g => g
termination_by (getParts line_cleaned).length
decreasing_by
  rename_i hne
  have hex : ∃ i ∈ passMark k (getParts (Geom.multiLineString ls))
      min_branch_length remove_one_by_one,
      i < (getParts (Geom.multiLineString ls)).length := by
    have hnil : passMark k (getParts (Geom.multiLineString ls)) min_branch_length
        remove_one_by_one ≠ [] := by
      intro hcon
      exact hne (by simp [line_parts_to_remove, line_cleaned_parts, hcon])
    rcases List.exists_mem_of_ne_nil _ hnil with ⟨i, hi⟩
    exact ⟨i, hi, passMark_lt _ _ _ _ i hi⟩
  calc (getParts (k.lineMerge (multilinestringsOf _))).length
      ≤ _ := k.lineMerge_le _
    _ = (npDelete (getParts (Geom.multiLineString ls))
          (passMark k (getParts (Geom.multiLineString ls)) min_branch_length
            remove_one_by_one)).length := by simp [multilinestringsOf]
    _ < (getParts (Geom.multiLineString ls)).length :=
        npDelete_length_lt _ _ hex

/-- `_remove_short_branches` from `pygeoops/_centerline.py`. -/
def _remove_short_branches (k : Kernel) (line : Option Geom)
    (min_branch_length : ℚ) (remove_one_by_one : Bool) : Option Geom :=
  match line with
  | none => none
  | some l =>
    if isLineStringB l ∨ min_branch_length ≤ 0 then some l
    else some (pruneLoop k min_branch_length remove_one_by_one (k.normalizeG l))

/-- `line_cleaned is None or line_cleaned.is_empty`. -/
def isEmptyO : Option Geom → Bool
  | none => true
  | some g => isEmptyG g

/-- `_remove_short_branches_notempty` from `pygeoops/_centerline.py`: bulk
prune, rerun conservatively from the unpruned input if the result is empty,
and fall back to the unpruned input if it is still empty. -/
def _remove_short_branches_notempty (k : Kernel) (line : Option Geom)
    (min_branch_length : ℚ) : Option Geom :=
  match line with
  | none => none
  | some l =>
    if isLineStringB l ∨ min_branch_length ≤ 0 then some l
    else
      let line_cleaned := _remove_short_branches k (some l) min_branch_length false
      let line_cleaned :=
        if isEmptyO line_cleaned then
          _remove_short_branches k (some l) min_branch_length true
        else line_cleaned
      if isEmptyO line_cleaned then some l else line_cleaned

/-! ## The centerline orchestrator (`_centerline`) -/

/-- `1e-8`, the tolerance/grid size used by the dedup and snap repairs. -/
def tol1e8 : ℚ := 1 / 100000000

/-- The densification part of `_centerline` (source lines 110-132): resolve
`max_segment_length`, cap the estimated vertex increase at 10x, and
segmentize.  Returns the geometry handed onward and the lazily computed
`average_width` (set only on the automatic path).

The rational model evaluates `x / 0` as `0` where Python would raise
`ZeroDivisionError`; that division is only reached with
`max_segment_length = 0`, which requires the width estimate to degenerate to
exactly zero on a shape that passed the compactness test. -/
def densifyPrep (k : Kernel) (geom : Geom) (densify_distance : ℚ) :
    Except PyErr (Geom × Option ℚ) :=
  if densify_distance ≠ 0 then
    let resolved : ℚ × Option ℚ :=
      if densify_distance > 0 then (densify_distance, none)
      else if _compactness k geom < 1 / 1000 then (0, none)
      else
        let average_width := _average_width k geom
        let max_segment_length := |densify_distance| * average_width
        let factor_increase :=
          (k.glength geom / max_segment_length) / (numCoords geom : ℚ)
        let max_factor_increase : ℚ := 10
        if factor_increase > max_factor_increase then
          (max_segment_length * (factor_increase / max_factor_increase),
            some average_width)
        else (max_segment_length, some average_width)
    if resolved.1 > 0 then
      match k.segmentize geom resolved.1 with
      | .ok geom_for_voronoi => .ok (geom_for_voronoi, resolved.2)
      | .error ex => .error ex
    else .ok (geom, resolved.2)
  else .ok (geom, none)

/-- The repeated-point removal of `_centerline` (source lines 134-148): on
the anticipated `GEOSException` about an invalid number of points in a
linearring, retry once with `set_precision`; any other error propagates. -/
def dedupStage (k : Kernel) (geom_for_voronoi : Geom) : Except PyErr Geom :=
  match k.remove_repeated_points geom_for_voronoi tol1e8 with
  | .ok geom_for_voronoi_dedup => .ok geom_for_voronoi_dedup
  | .error ex =>
    if ex.ty = "GEOSException" then
      if containsSub (pyLower ex.msg) "invalid number of points in linearring" then
        k.set_precision geom_for_voronoi tol1e8
      else .error ex
    else .error ex

/-- The dedup stage followed by the validity gate (source lines 150-151): an
invalid dedup/snap result is discarded in favour of the pre-dedup
geometry. -/
def dedupGate (k : Kernel) (geom_for_voronoi : Geom) : Except PyErr Geom :=
  match dedupStage k geom_for_voronoi with
  | .ok geom_for_voronoi_dedup =>
    .ok (if k.is_valid geom_for_voronoi_dedup then geom_for_voronoi_dedup
      else geom_for_voronoi)
  | .error ex => .error ex

/-- The Voronoi-edge computation of `_centerline` (source lines 153-168): on
the anticipated `GEOSException` about a degenerate point array, snap the
precision and retry once; any other error propagates. -/
def voronoiStage (k : Kernel) (geom_for_voronoi : Geom) : Except PyErr Geom :=
  match k.voronoi_polygons geom_for_voronoi true with
  | .ok voronoi_edges => .ok voronoi_edges
  | .error ex =>
    if ex.ty = "GEOSException" then
      if containsSub (pyLower ex.msg) "point array must contain" then
        match k.set_precision geom_for_voronoi tol1e8 with
        | .ok snapped => k.voronoi_polygons snapped true
        | .error ex2 => .error ex2
      else .error ex
    else .error ex

/-- The raw-skeleton extraction of `_centerline` (source lines 170-183):
keep the Voronoi edges contained in the original polygon; merge when more
than one survives; intersect with the polygon when none does. -/
def skeletonStage (k : Kernel) (geom : Geom) (voronoi_edges : Geom) :
    Except PyErr Geom :=
  let edges := (getParts voronoi_edges).filter (fun e => k.containsB geom e)
  match edges with
  | [e] => .ok e
  | [] =>
    match k.intersectionOp geom voronoi_edges with
    | .ok voronoi_clipped => .ok (k.lineMerge voronoi_clipped)
    | .error ex => .error ex
  | es => .ok (k.lineMerge (multilinestringsOf es))

/-- The branch-pruning part of `_centerline` (source lines 185-195): resolve
`min_branch_length` (negative means a multiple of the lazily shared
`average_width`) and prune when positive. -/
def branchStage (k : Kernel) (geom lines : Geom) (min_branch_length : ℚ)
    (average_width : Option ℚ) : Geom × Option ℚ :=
  if min_branch_length < 0 then
    let aw := average_width.getD (_average_width k geom)
    let min_branch_length_cur := |min_branch_length| * aw
    (if min_branch_length_cur > 0 then
        (_remove_short_branches_notempty k (some lines)
          min_branch_length_cur).getD lines
      else lines, some aw)
  else
    (if min_branch_length > 0 then
        (_remove_short_branches_notempty k (some lines)
          min_branch_length).getD lines
      else lines, average_width)

/-- The simplification part of `_centerline` (source lines 197-205):
`simplifytolerance is None` skips the stage entirely; otherwise
`shapely.simplify` is invoked, with a negative tolerance resolved against
the shared `average_width`. -/
def simplifyStage (k : Kernel) (geom lines : Geom) (simplifytolerance : Option ℚ)
    (average_width : Option ℚ) : Except PyErr (Geom × Option ℚ) :=
  match simplifytolerance with
  | none => .ok (lines, average_width)
  | some tol =>
    if tol < 0 then
      let aw := average_width.getD (_average_width k geom)
      match k.simplifyOp lines (|tol| * aw) with
      | .ok l => .ok (l, some aw)
      | .error ex => .error ex
    else
      match k.simplifyOp lines tol with
      | .ok l => .ok (l, average_width)
      | .error ex => .error ex

/-- The `try` body of `_centerline` (source lines 109-212): the full
single-polygon pipeline, before the error-wrapping boundary. -/
def _centerlineBody (k : Kernel) (geom : Geom) (densify_distance : ℚ)
    (min_branch_length : ℚ) (simplifytolerance : Option ℚ) (extend : Bool) :
    Except PyErr Geom := do
  let (geom_for_voronoi, average_width) ← densifyPrep k geom densify_distance
  let geom_for_voronoi ← dedupGate k geom_for_voronoi
  let voronoi_edges ← voronoiStage k geom_for_voronoi
  let lines ← skeletonStage k geom voronoi_edges
  let branched := branchStage k geom lines min_branch_length average_width
  let simplified ←
    simplifyStage k geom branched.1 simplifytolerance branched.2
  let lines ← if extend then k.extendLine simplified.1 geom
    else .ok simplified.1
  .ok (k.normalizeG lines)

/-- `_centerline` from `pygeoops/_centerline.py`: `None`/empty input yields
`None`; any exception escaping the pipeline is re-raised with the same type
and a message prefixed by a short identification of the offending
geometry. -/
def _centerline (k : Kernel) (geom : Option Geom) (densify_distance : ℚ)
    (min_branch_length : ℚ) (simplifytolerance : Option ℚ) (extend : Bool) :
    Except PyErr (Option Geom) :=
  match geom with
  | none => .ok none
  | some g =>
    if isEmptyG g then .ok none
    else
      match _centerlineBody k g densify_distance min_branch_length
          simplifytolerance extend with
      | .ok lines => .ok (some lines)
      | .error ex =>
        .error { ty := ex.ty,
                 msg := "Error for geometry " ++ format_short (some g) ++ ": "
                   ++ ex.msg }

/-! ## The public `centerline`: scalar, array and GeoSeries inputs -/

/-- The shapes of the public `centerline`'s `geometry` argument: a scalar
geometry (possibly `None`), a 0-dimensional ndarray wrapping one, an
array-like, or a GeoSeries with its index and CRS. -/
inductive GeomInput : Type where
  | scalar (g : Option Geom)
  | array0dim (g : Option Geom)
  | array (gs : List (Option Geom))
  | geoseries (gs : List (Option Geom)) (index : List Int) (crs : Option String)

/-- The shapes of the public `centerline`'s result. -/
inductive GeomOutput : Type where
  | scalar (g : Option Geom)
  | array (gs : List (Option Geom))
  | geoseries (gs : List (Option Geom)) (index : List Int) (crs : Option String)

/-- `_extract_0dim_ndarray` from `pygeoops/_general.py`: unwrap a
0-dimensional ndarray into its single item. -/
def _extract_0dim_ndarray : GeomInput → GeomInput
  | .array0dim g => .scalar g
  | i => i

/-- `centerline` from `pygeoops/_centerline.py`: `None` passes through;
array-likes are processed element by element (a list comprehension: the
first raised error aborts the whole call); a GeoSeries result keeps the
input's index and CRS. -/
def centerline (k : Kernel) (geometry : Option GeomInput) (densify_distance : ℚ)
    (min_branch_length : ℚ) (simplifytolerance : Option ℚ) (extend : Bool) :
    Except PyErr (Option GeomOutput) :=
  match geometry with
  | none => .ok none
  | some gin =>
    match _extract_0dim_ndarray gin with
    | .scalar g =>
      match _centerline k g densify_distance min_branch_length
          simplifytolerance extend with
      | .ok r => .ok (some (.scalar r))
      | .error ex => .error ex
    | .array0dim g =>
      match _centerline k g densify_distance min_branch_length
          simplifytolerance extend with
      | .ok r => .ok (some (.scalar r))
      | .error ex => .error ex
    | .array gs =>
      match gs.mapM (fun g => _centerline k g densify_distance
          min_branch_length simplifytolerance extend) with
      | .ok rs => .ok (some (.array rs))
      | .error ex => .error ex
    | .geoseries gs index crs =>
      match gs.mapM (fun g => _centerline k g densify_distance
          min_branch_length simplifytolerance extend) with
      | .ok rs => .ok (some (.geoseries rs index crs))
      | .error ex => .error ex

/-! ## A concrete, executable kernel instance

`QKernel` is a small rational geometry kernel used to evaluate the engine on
concrete inputs.  On the axis-aligned test data used below its lengths and
square roots agree exactly with the double-precision GEOS kernel (taxicab
distance equals Euclidean distance for axis-parallel segments, and the
square roots involved are exact). -/

/-- Taxicab distance; equal to the Euclidean distance for axis-parallel
segments. -/
def mdist (a b : Point) : ℚ := |b.1 - a.1| + |b.2 - a.2|

/-- Length of a polyline/ring given by its coordinates. -/
def plen : List Point → ℚ
  | a :: b :: rest => mdist a b + plen (b :: rest)
  | _ => 0

/-- Shoelace sum over consecutive ring coordinates. -/
def ringAreaGo : List Point → ℚ
  | a :: b :: rest => (a.1 * b.2 - b.1 * a.2) + ringAreaGo (b :: rest)
  | _ => 0

/-- Shoelace area of a ring (first coordinate repeated at the end). -/
def ringArea (cs : List Point) : ℚ :=
  |ringAreaGo cs| / 2

/-- Length of a geometry (perimeter for polygons), taxicab metric. -/
def glengthQ : Geom → ℚ
  | .point _ => 0
  | .lineString cs => plen cs
  | .linearRing cs => plen cs
  | .polygon ext holes => plen ext + (holes.map plen).sum
  | .multiPoint _ => 0
  | .multiLineString ls => (ls.map plen).sum
  | .multiPolygon polys =>
    (polys.map (fun pr => plen pr.1 + (pr.2.map plen).sum)).sum
  | .geometryCollection _ => 0

/-- Area of a geometry (holes subtracted). -/
def gareaQ : Geom → ℚ
  | .polygon ext holes => ringArea ext - (holes.map ringArea).sum
  | .multiPolygon polys =>
    (polys.map (fun pr => ringArea pr.1 - (pr.2.map ringArea).sum)).sum
  | _ => 0

/-- Rational square root, exact on ratios of perfect squares (all that the
concrete tests exercise). -/
def msqrtQ (x : ℚ) : ℚ :=
  if x ≤ 0 then 0 else (Nat.sqrt x.num.toNat : ℚ) / (Nat.sqrt x.den : ℚ)

/-- The intermediate points `shapely.segmentize` inserts on one segment:
split it into `max(1, ceil(len / max_segment_length))` equal pieces and keep
every piece's start point. -/
def segPts (a b : Point) (m : ℚ) : List Point :=
  let n : Nat := max 1 (Int.toNat ⌈mdist a b / m⌉)
  (List.range n).map (fun i =>
    (a.1 + (b.1 - a.1) * i / n, a.2 + (b.2 - a.2) * i / n))

/-- Densify one coordinate sequence. -/
def densifyLine (cs : List Point) (m : ℚ) : List Point :=
  match cs with
  | [] => []
  | _ :: _ =>
    ((cs.zip cs.tail).map (fun pr => segPts pr.1 pr.2 m)).flatten
      ++ [cs.getLastD (0, 0)]

/-- `shapely.segmentize` on the concrete kernel. -/
def segmentizeQ (g : Geom) (m : ℚ) : Except PyErr Geom :=
  match g with
  | .polygon ext holes =>
    .ok (.polygon (densifyLine ext m) (holes.map (fun h => densifyLine h m)))
  | .lineString cs => .ok (.lineString (densifyLine cs m))
  | .linearRing cs => .ok (.linearRing (densifyLine cs m))
  | g => .ok g

/-- Drop interior vertices that lie exactly on the segment between their
neighbours; this is what Douglas-Peucker at tolerance `0` removes. -/
def dropCollinearFuel : Nat → List Point → List Point
  | fuel + 1, a :: b :: c :: rest =>
    if (b.1 - a.1) * (c.2 - a.2) - (c.1 - a.1) * (b.2 - a.2) = 0 ∧
        (b.1 - a.1) * (b.1 - c.1) + (b.2 - a.2) * (b.2 - c.2) ≤ 0 then
      dropCollinearFuel fuel (a :: c :: rest)
    else a :: dropCollinearFuel fuel (b :: c :: rest)
  | _, cs => cs

def dropCollinear (cs : List Point) : List Point :=
  dropCollinearFuel cs.length cs

/-- `shapely.simplify` on the concrete kernel: for a nonnegative tolerance,
remove the vertices at distance zero from the chord (exactly collinear
points), the behaviour of GEOS Douglas-Peucker shared by every tolerance
`≥ 0` on exactly-collinear input. -/
def simplifyQ (g : Geom) (tol : ℚ) : Except PyErr Geom :=
  if 0 ≤ tol then
    match g with
    | .lineString cs => .ok (.lineString (dropCollinear cs))
    | g => .ok g
  else .ok g

/-- The concrete kernel.  The STRtree conservatively reports every indexed
geometry as a candidate (a valid, complete spatial index), and `line_merge`
is the identity (which merges nothing, a legal degenerate merge). -/
def QKernel : Kernel where
  glength := glengthQ
  garea := gareaQ
  boundary := fun g => g
  msqrt := msqrtQ
  segmentize := segmentizeQ
  remove_repeated_points := fun g _ => .ok g
  set_precision := fun g _ => .ok g
  is_valid := fun _ => true
  voronoi_polygons := fun _ _ => .ok (.multiLineString [[(0, 0), (1, 1)]])
  containsB := fun _ _ => true
  intersectionOp := fun _ b => .ok b
  lineMerge := fun g => g
  simplifyOp := simplifyQ
  normalizeG := fun g => g
  intersectsPt := fun g p => decide (p ∈ getCoordinates g)
  strQuery := fun parts _ => List.range parts.length
  extendLine := fun l _ => .ok l
  strQuery_lt := by intro parts p i hi; simpa using hi
  strQuery_complete := by intro parts p i h _; simpa using h
  strQuery_coords := by intro parts p i h _; simpa using h
  lineMerge_le := by intro ls; simp [getParts]

/-! ## Lemmas about the branch pruner -/

theorem two_mem_one_lt_length {α : Type} {l : List α} {a b : α}
    (ha : a ∈ l) (hb : b ∈ l) (hab : a ≠ b) : 1 < l.length := by
  cases l with
  | nil => cases ha
  | cons x xs =>
    cases xs with
    | nil =>
      have ha' : a = x := by simpa using ha
      have hb' : b = x := by simpa using hb
      exact absurd (ha'.trans hb'.symm) hab
    | cons y ys => simp [Nat.lt_add_of_pos_left]

theorem headD_mem {α : Type} {cs : List α} (d : α) (h : cs ≠ []) :
    cs.headD d ∈ cs := by
  cases cs with
  | nil => exact absurd rfl h
  | cons a t => simp [List.headD]

theorem getLastD_mem {α : Type} {cs : List α} (d : α) (h : cs ≠ []) :
    cs.getLastD d ∈ cs := by
  rw [List.getLastD_eq_getLast?, List.getLast?_eq_getLast cs h]
  exact List.getLast_mem h

theorem startPt_mem (g : Geom) (h : getCoordinates g ≠ []) :
    startPt g ∈ getCoordinates g := headD_mem (0, 0) h

theorem endPt_mem (g : Geom) (h : getCoordinates g ≠ []) :
    endPt g ∈ getCoordinates g := getLastD_mem (0, 0) h

/-- If some other part really intersects the query point and the point is a
coordinate of the part itself, the code's adjacency check fires: the
spatial index returns both parts, and the exact re-check succeeds. -/
theorem adjacency_true (k : Kernel) (parts : List Geom) (i : Nat) (p : Point)
    (hi : i < parts.length) (hp : p ∈ getCoordinates parts[i])
    (j : Nat) (hj : j < parts.length) (hne : j ≠ i)
    (hint : k.intersectsPt parts[j] p = true) :
    adjacency k parts i p = true := by
  unfold adjacency
  have hiq : i ∈ k.strQuery parts p := k.strQuery_coords parts p i hi hp
  have hjq : j ∈ k.strQuery parts p := k.strQuery_complete parts p j hj hint
  have hlen : 1 < (k.strQuery parts p).length :=
    two_mem_one_lt_length hjq hiq hne
  rw [if_pos hlen]
  refine List.any_eq_true.mpr ⟨j, hjq, ?_⟩
  rw [List.getD_eq_getElem?_getD, List.getElem?_eq_getElem hj]
  simp [hne, hint]

/-- If no other part intersects the query point, the adjacency check
reports `false` (the spatial index only returns valid indices, and each is
re-checked exactly). -/
theorem adjacency_false (k : Kernel) (parts : List Geom) (i : Nat) (p : Point)
    (hall : ∀ j (hj : j < parts.length), j ≠ i →
      k.intersectsPt parts[j] p = false) :
    adjacency k parts i p = false := by
  simp only [adjacency]
  split
  · rw [List.any_eq_false]
    intro pr hpr
    have hj := k.strQuery_lt parts p pr hpr
    by_cases hji : pr = i
    · simp [hji]
    · have := hall pr hj hji
      rw [List.getD_eq_getElem?_getD, List.getElem?_eq_getElem hj]
      simp [hji, this]
  · rfl

/-- A part whose two adjacency flags agree (a bridge or a standalone line)
is never added to `line_parts_to_remove`. -/
theorem passMarkGo_keep (k : Kernel) (parts : List Geom) (m : ℚ) (b : Bool)
    (i : Nat) (cur : Geom)
    (hsaea : adjacency k parts i (startPt cur) = adjacency k parts i (endPt cur)) :
    ∀ (l : List (Nat × Geom)) (acc : List Nat),
      (∀ c, (i, c) ∈ l → c = cur) → i ∉ acc →
      i ∉ passMarkGo k parts m b l acc := by
  intro l
  induction l with
  | nil => intro acc _ hacc; simpa [passMarkGo] using hacc
  | cons hd tl ih =>
    intro acc hEq hacc
    obtain ⟨idx, c⟩ := hd
    have hEq' : ∀ c', (i, c') ∈ tl → c' = cur :=
      fun c' hc' => hEq c' (List.mem_cons_of_mem _ hc')
    by_cases hidx : idx = i
    · subst hidx
      have hc : c = cur := hEq c (List.mem_cons_self _ _)
      simp only [passMarkGo]
      split
      · exact ih acc hEq' hacc
      · split
        · exact ih acc hEq' hacc
        · split
          · exact ih acc hEq' hacc
          · rename_i hnboth hnbothT
            exfalso
            rw [hc] at hnboth hnbothT
            rcases Bool.eq_false_or_eq_true
                (adjacency k parts idx (startPt cur)) with hsa | hsa
            · exact hnbothT ⟨hsa, hsaea.symm.trans hsa⟩
            · exact hnboth ⟨hsa, hsaea.symm.trans hsa⟩
    · have hidx' : i ≠ idx := fun hcon => hidx hcon.symm
      have hacc' : i ∉ acc ++ [idx] := by simp [hacc, hidx']
      simp only [passMarkGo]
      split
      · exact ih acc hEq' hacc
      · split
        · exact ih acc hEq' hacc
        · split
          · exact ih acc hEq' hacc
          · split
            · exact hacc'
            · exact ih (acc ++ [idx]) hEq' hacc'

/-- Entries of the length-sorted enumeration are genuine `(index, part)`
pairs of the part list. -/
theorem mem_sorted_enum (k : Kernel) (parts : List Geom) (i : Nat) (c : Geom)
    (h : (i, c) ∈ parts.enum.mergeSort
      (fun a b => decide (k.glength a.2 ≤ k.glength b.2))) :
    parts[i]? = some c :=
  List.mem_enum_iff_getElem?.mp (List.mem_mergeSort.mp h)

/-- A part which the pass does not mark survives `np.delete`. -/
theorem npDelete_mem (parts : List Geom) (idxs : List Nat) (i : Nat)
    (hi : i < parts.length) (hnot : i ∉ idxs) :
    parts[i] ∈ npDelete parts idxs := by
  unfold npDelete
  refine List.mem_map.mpr ⟨(i, parts[i]), ?_, rfl⟩
  refine List.mem_filter.mpr ⟨?_, by simpa using hnot⟩
  exact List.mem_enum_iff_getElem?.mpr (List.getElem?_eq_getElem hi)

/-- `_remove_short_branches` never turns a geometry into `None`. -/
theorem _remove_short_branches_some (k : Kernel) (l : Geom) (m : ℚ) (b : Bool) :
    ∃ r, _remove_short_branches k (some l) m b = some r := by
  simp only [_remove_short_branches]
  split
  · exact ⟨l, rfl⟩
  · exact ⟨_, rfl⟩

/-- Membership in the bulk-mode mark list, characterised: exactly the
in-range parts shorter than the threshold whose two adjacency flags
differ. -/
theorem passMarkGo_mem_iff (k : Kernel) (parts : List Geom) (m : ℚ) :
    ∀ (l : List (Nat × Geom)) (acc : List Nat) (i : Nat),
      i ∈ passMarkGo k parts m false l acc ↔
        i ∈ acc ∨ ∃ c, (i, c) ∈ l ∧ k.glength c < m ∧
          adjacency k parts i (startPt c) ≠ adjacency k parts i (endPt c) := by
  intro l
  induction l with
  | nil => intro acc i; simp [passMarkGo]
  | cons hd tl ih =>
    intro acc i
    obtain ⟨idx, c⟩ := hd
    have hhead : ∀ c' : Geom,
        (i, c') ∈ (idx, c) :: tl ↔ (i = idx ∧ c' = c) ∨ (i, c') ∈ tl := by
      intro c'
      constructor
      · intro h
        rcases List.mem_cons.mp h with h | h
        · exact Or.inl (Prod.mk.inj h)
        · exact Or.inr h
      · rintro (⟨h1, h2⟩ | h)
        · subst h1; subst h2; exact List.mem_cons_self _ _
        · exact List.mem_cons_of_mem _ h
    simp only [passMarkGo]
    split
    · rename_i hlong
      rw [ih]
      refine or_congr_right ?_
      constructor
      · rintro ⟨c', hc', hcond⟩
        exact ⟨c', List.mem_cons_of_mem _ hc', hcond⟩
      · rintro ⟨c', hc', hlen', hcond⟩
        rcases (hhead c').mp hc' with ⟨h1, h2⟩ | h
        · exact absurd (h2 ▸ hlen') (not_lt.mpr hlong)
        · exact ⟨c', h, hlen', hcond⟩
    · rename_i hshort
      have hlenc : k.glength c < m := lt_of_not_le hshort
      split
      · rename_i hboth
        rw [ih]
        refine or_congr_right ?_
        constructor
        · rintro ⟨c', hc', hcond⟩
          exact ⟨c', List.mem_cons_of_mem _ hc', hcond⟩
        · rintro ⟨c', hc', hlen', hcond⟩
          rcases (hhead c').mp hc' with ⟨h1, h2⟩ | h
          · exfalso
            apply hcond
            subst h1; subst h2
            rw [hboth.1, hboth.2]
          · exact ⟨c', h, hlen', hcond⟩
      · rename_i hnboth
        split
        · rename_i htrue
          rw [ih]
          refine or_congr_right ?_
          constructor
          · rintro ⟨c', hc', hcond⟩
            exact ⟨c', List.mem_cons_of_mem _ hc', hcond⟩
          · rintro ⟨c', hc', hlen', hcond⟩
            rcases (hhead c').mp hc' with ⟨h1, h2⟩ | h
            · exfalso
              apply hcond
              subst h1; subst h2
              rw [htrue.1, htrue.2]
            · exact ⟨c', h, hlen', hcond⟩
        · rename_i hmixT
          rw [if_neg (by decide : ¬(false = true)), ih]
          constructor
          · rintro (h | ⟨c', hc', hcond⟩)
            · rcases List.mem_append.mp h with h | h
              · exact Or.inl h
              · have h1 : i = idx := by simpa using h
                subst h1
                refine Or.inr ⟨c, List.mem_cons_self _ _, hlenc, ?_⟩
                intro hcon
                rcases Bool.eq_false_or_eq_true
                    (adjacency k parts i (startPt c)) with hsa | hsa
                · exact hmixT ⟨hsa, hcon.symm.trans hsa⟩
                · exact hnboth ⟨hsa, hcon.symm.trans hsa⟩
            · exact Or.inr ⟨c', List.mem_cons_of_mem _ hc', hcond⟩
          · rintro (h | ⟨c', hc', hlen', hcond⟩)
            · exact Or.inl (List.mem_append.mpr (Or.inl h))
            · rcases (hhead c').mp hc' with ⟨h1, h2⟩ | h
              · exact Or.inl (List.mem_append.mpr (Or.inr (by simp [h1])))
              · exact Or.inr ⟨c', h, hlen', hcond⟩

/-- The bulk-mode mark set of one pass, characterised at the level of
`passMark`. -/
theorem passMark_mem_iff (k : Kernel) (parts : List Geom) (m : ℚ) (i : Nat) :
    i ∈ passMark k parts m false ↔
      ∃ hi : i < parts.length, k.glength parts[i] < m ∧
        adjacency k parts i (startPt parts[i]) ≠
          adjacency k parts i (endPt parts[i]) := by
  unfold passMark
  rw [passMarkGo_mem_iff]
  simp only [List.not_mem_nil, false_or]
  constructor
  · rintro ⟨c, hc, hlen, hcond⟩
    have hc' := mem_sorted_enum k parts i c hc
    obtain ⟨hi, hceq⟩ := List.getElem?_eq_some.mp hc'
    exact ⟨hi, hceq ▸ hlen, hceq ▸ hcond⟩
  · rintro ⟨hi, hlen, hcond⟩
    refine ⟨parts[i], ?_, hlen, hcond⟩
    exact List.mem_mergeSort.mpr
      (List.mem_enum_iff_getElem?.mpr (List.getElem?_eq_getElem hi))

/-- `_remove_short_branches_notempty` on a present geometry either returns
the input unchanged or returns a non-empty geometry. -/
theorem rsbn_cases (k : Kernel) (l : Geom) (m : ℚ) :
    _remove_short_branches_notempty k (some l) m = some l ∨
      ∃ r, _remove_short_branches_notempty k (some l) m = some r ∧
        isEmptyG r = false := by
  obtain ⟨r1, hr1⟩ := _remove_short_branches_some k l m false
  obtain ⟨r2, hr2⟩ := _remove_short_branches_some k l m true
  simp only [_remove_short_branches_notempty, hr1, hr2, isEmptyO]
  split
  · left
    first
    | rfl
    | trivial
  · by_cases h1 : isEmptyG r1 = true
    · simp only [h1, if_true]
      by_cases h2 : isEmptyG r2 = true
      · simp only [h2, if_true]
        left
        first
        | rfl
        | trivial
      · rw [if_neg h2]
        exact Or.inr ⟨r2, rfl, by simpa using h2⟩
    · rw [if_neg h1, if_neg h1]
      exact Or.inr ⟨r1, rfl, by simpa using h1⟩

/-- C1: for every non-empty multi-line skeleton input, the branch pruner
`_remove_short_branches_notempty` returns a non-empty result; it first
prunes in bulk mode and keeps that result when non-empty, on an empty bulk
outcome it reruns the whole pruning from the unpruned input in conservative
mode, and if that is also empty it returns the unpruned input unchanged —
so pruning never turns a non-empty skeleton into an empty one. -/
theorem pruner_notempty (k : Kernel) (ls : List (List Point)) (m : ℚ)
    (hne : isEmptyG (Geom.multiLineString ls) = false) :
    (∃ r, _remove_short_branches_notempty k (some (.multiLineString ls)) m
        = some r ∧ isEmptyG r = false) ∧
    (¬m ≤ 0 →
      (isEmptyO (_remove_short_branches k (some (.multiLineString ls)) m
          false) = false →
        _remove_short_branches_notempty k (some (.multiLineString ls)) m
          = _remove_short_branches k (some (.multiLineString ls)) m false) ∧
      (isEmptyO (_remove_short_branches k (some (.multiLineString ls)) m
          false) = true →
        isEmptyO (_remove_short_branches k (some (.multiLineString ls)) m
          true) = false →
        _remove_short_branches_notempty k (some (.multiLineString ls)) m
          = _remove_short_branches k (some (.multiLineString ls)) m true) ∧
      (isEmptyO (_remove_short_branches k (some (.multiLineString ls)) m
          false) = true →
        isEmptyO (_remove_short_branches k (some (.multiLineString ls)) m
          true) = true →
        _remove_short_branches_notempty k (some (.multiLineString ls)) m
          = some (.multiLineString ls))) := by
  constructor
  · rcases rsbn_cases k (.multiLineString ls) m with h | ⟨r, hr, hre⟩
    · exact ⟨_, h, hne⟩
    · exact ⟨r, hr, hre⟩
  · intro hm
    have hguard : ¬(isLineStringB (Geom.multiLineString ls) = true ∨ m ≤ 0) := by
      simp [isLineStringB, hm]
    refine ⟨?_, ?_, ?_⟩
    · intro h1
      simp only [_remove_short_branches_notempty, if_neg hguard, h1]
      simp [h1]
    · intro h1 h2
      simp only [_remove_short_branches_notempty, if_neg hguard, h1]
      simp [h1, h2]
    · intro h1 h2
      simp only [_remove_short_branches_notempty, if_neg hguard, h1]
      simp [h1, h2]

/-- Witness for C1 at a concrete two-part skeleton. -/
theorem pruner_notempty_witness :
    isEmptyG (Geom.multiLineString [[(0, 0), (1, 0)], [(1, 0), (2, 0)]])
        = false ∧
      ((∃ r, _remove_short_branches_notempty QKernel
          (some (.multiLineString [[(0, 0), (1, 0)], [(1, 0), (2, 0)]])) 1
          = some r ∧ isEmptyG r = false) ∧
      (¬(1 : ℚ) ≤ 0 →
        (isEmptyO (_remove_short_branches QKernel
            (some (.multiLineString [[(0, 0), (1, 0)], [(1, 0), (2, 0)]])) 1
            false) = false →
          _remove_short_branches_notempty QKernel
            (some (.multiLineString [[(0, 0), (1, 0)], [(1, 0), (2, 0)]])) 1
            = _remove_short_branches QKernel
              (some (.multiLineString [[(0, 0), (1, 0)], [(1, 0), (2, 0)]])) 1
              false) ∧
        (isEmptyO (_remove_short_branches QKernel
            (some (.multiLineString [[(0, 0), (1, 0)], [(1, 0), (2, 0)]])) 1
            false) = true →
          isEmptyO (_remove_short_branches QKernel
            (some (.multiLineString [[(0, 0), (1, 0)], [(1, 0), (2, 0)]])) 1
            true) = false →
          _remove_short_branches_notempty QKernel
            (some (.multiLineString [[(0, 0), (1, 0)], [(1, 0), (2, 0)]])) 1
            = _remove_short_branches QKernel
              (some (.multiLineString [[(0, 0), (1, 0)], [(1, 0), (2, 0)]])) 1
              true) ∧
        (isEmptyO (_remove_short_branches QKernel
            (some (.multiLineString [[(0, 0), (1, 0)], [(1, 0), (2, 0)]])) 1
            false) = true →
          isEmptyO (_remove_short_branches QKernel
            (some (.multiLineString [[(0, 0), (1, 0)], [(1, 0), (2, 0)]])) 1
            true) = true →
          _remove_short_branches_notempty QKernel
            (some (.multiLineString [[(0, 0), (1, 0)], [(1, 0), (2, 0)]])) 1
            = some (.multiLineString [[(0, 0), (1, 0)], [(1, 0), (2, 0)]])))) :=
  ⟨by decide, pruner_notempty QKernel [[(0, 0), (1, 0)], [(1, 0), (2, 0)]] 1
    (by decide)⟩

/-- A Y-shaped skeleton: parts 0 and 2 hang off the two endpoints of the
bridge part 1. -/
def yParts : List Geom :=
  [.lineString [(0, 0), (0, 1)], .lineString [(0, 0), (1, 0)],
    .lineString [(1, 0), (1, 1)]]

/-- C2: in every pruning pass, for every `min_branch_length` and both
removal modes, an edge whose two endpoints are each really intersected by
some other edge of the current edge set (a bridge) is never marked for
removal and survives the pass; likewise an edge with neither endpoint
intersected by any other edge (standalone) is kept. -/
theorem pass_keeps_bridges_and_standalone (k : Kernel) (parts : List Geom)
    (m : ℚ) (b : Bool) (i : Nat) (hi : i < parts.length)
    (hcases :
      (getCoordinates parts[i] ≠ [] ∧
        (∃ j, ∃ _ : j < parts.length, j ≠ i ∧
          k.intersectsPt (parts.get ⟨j, by assumption⟩) (startPt parts[i]) = true) ∧
        (∃ j, ∃ _ : j < parts.length, j ≠ i ∧
          k.intersectsPt (parts.get ⟨j, by assumption⟩) (endPt parts[i]) = true)) ∨
      (∀ j (hj : j < parts.length), j ≠ i →
        k.intersectsPt parts[j] (startPt parts[i]) = false ∧
        k.intersectsPt parts[j] (endPt parts[i]) = false)) :
    i ∉ passMark k parts m b ∧
      parts[i] ∈ npDelete parts (passMark k parts m b) := by
  have hsaea : adjacency k parts i (startPt parts[i])
      = adjacency k parts i (endPt parts[i]) := by
    rcases hcases with ⟨hne, ⟨j1, hj1, hne1, hint1⟩, ⟨j2, hj2, hne2, hint2⟩⟩ | hall
    · rw [adjacency_true k parts i (startPt parts[i]) hi (startPt_mem _ hne)
          j1 hj1 hne1 hint1,
        adjacency_true k parts i (endPt parts[i]) hi (endPt_mem _ hne)
          j2 hj2 hne2 hint2]
    · rw [adjacency_false k parts i (startPt parts[i])
          (fun j hj hjne => (hall j hj hjne).1),
        adjacency_false k parts i (endPt parts[i])
          (fun j hj hjne => (hall j hj hjne).2)]
  have hnot : i ∉ passMark k parts m b := by
    unfold passMark
    refine passMarkGo_keep k parts m b i parts[i] hsaea _ [] ?_ (by simp)
    intro c hc
    have hsome := mem_sorted_enum k parts i c hc
    rw [List.getElem?_eq_getElem hi] at hsome
    exact (Option.some.inj hsome).symm
  exact ⟨hnot, npDelete_mem parts _ i hi hnot⟩

/-- Witness for C2: in the Y-shaped skeleton the bridge (part 1) survives
the pass. -/
theorem pass_keeps_bridges_witness :
    (1 < yParts.length ∧
      QKernel.intersectsPt yParts[0] (startPt yParts[1]) = true ∧
      QKernel.intersectsPt yParts[2] (endPt yParts[1]) = true) ∧
    (1 ∉ passMark QKernel yParts 5 false ∧
      yParts[1] ∈ npDelete yParts (passMark QKernel yParts 5 false)) :=
  ⟨⟨by decide, by decide, by decide⟩,
    pass_keeps_bridges_and_standalone QKernel yParts 5 false 1 (by decide)
      (Or.inl ⟨by decide, ⟨0, by decide, by decide, by decide⟩,
        ⟨2, by decide, by decide, by decide⟩⟩)⟩

/-- C10: the branch pruner is the identity on inputs that need no pruning:
a single `LineString` input is returned unchanged by both
`_remove_short_branches_notempty` and `_remove_short_branches` for every
`min_branch_length`, and every input (including `None`) is returned
unchanged by both when `min_branch_length ≤ 0`. -/
theorem pruner_identity_cases (k : Kernel) (m : ℚ) :
    (∀ (cs : List Point) (b : Bool),
      _remove_short_branches_notempty k (some (.lineString cs)) m
          = some (.lineString cs) ∧
        _remove_short_branches k (some (.lineString cs)) m b
          = some (.lineString cs)) ∧
    (m ≤ 0 → ∀ (line : Option Geom) (b : Bool),
      _remove_short_branches_notempty k line m = line ∧
        _remove_short_branches k line m b = line) := by
  constructor
  · intro cs b
    constructor
    · simp [_remove_short_branches_notempty, isLineStringB]
    · simp [_remove_short_branches, isLineStringB]
  · intro hm line b
    cases line with
    | none => exact ⟨rfl, rfl⟩
    | some l =>
      constructor
      · simp [_remove_short_branches_notempty, Or.inr hm]
      · simp [_remove_short_branches, Or.inr hm]

/-- Witness for C10 at `min_branch_length = 0` and a concrete input. -/
theorem pruner_identity_witness :
    ((0 : ℚ) ≤ 0) ∧
    ((∀ (cs : List Point) (b : Bool),
      _remove_short_branches_notempty QKernel (some (.lineString cs)) 0
          = some (.lineString cs) ∧
        _remove_short_branches QKernel (some (.lineString cs)) 0 b
          = some (.lineString cs)) ∧
    ((0 : ℚ) ≤ 0 → ∀ (line : Option Geom) (b : Bool),
      _remove_short_branches_notempty QKernel line 0 = line ∧
        _remove_short_branches QKernel line 0 b = line)) :=
  ⟨le_refl 0, pruner_identity_cases QKernel 0⟩

/-! ## Claims about the orchestrator stages -/

/-- C4 (amended): `densify_distance = 0` disables densification and
`min_branch_length = 0` disables branch removal — the geometry passes
through those stages unchanged; but `simplifytolerance = 0` does not
disable simplification: `shapely.simplify` is still invoked with tolerance
`0`, and only `simplifytolerance = None` skips the simplify stage. -/
theorem zero_parameters_stages (k : Kernel) (geom lines : Geom)
    (awOpt : Option ℚ) :
    densifyPrep k geom 0 = .ok (geom, none) ∧
    (branchStage k geom lines 0 awOpt).1 = lines ∧
    simplifyStage k geom lines (some 0) awOpt =
      (match k.simplifyOp lines 0 with
        | .ok l => .ok (l, awOpt)
        | .error ex => .error ex) ∧
    simplifyStage k geom lines none awOpt = .ok (lines, awOpt) := by
  refine ⟨?_, ?_, ?_, rfl⟩
  · simp [densifyPrep]
  · simp [branchStage]
  · simp [simplifyStage]

/-- Counterexample to C4 as stated: at `simplifytolerance = 0` the simplify
stage is executed, and on a line with an exactly-collinear interior vertex
it changes the geometry (the concrete kernel's simplify removes vertices at
distance `0` from the chord, as GEOS Douglas-Peucker does at tolerance
`0`), so the geometry does not pass through the stage unchanged. -/
theorem zero_simplify_changes_geometry :
    simplifyStage QKernel (.point (0, 0))
        (.lineString [(0, 0), (1, 0), (2, 0)]) (some 0) none
      = .ok (.lineString [(0, 0), (2, 0)], none) ∧
    (Geom.lineString [(0, 0), (2, 0)]
      = Geom.lineString [(0, 0), (1, 0), (2, 0)] → False) := by
  constructor
  · norm_num [simplifyStage, QKernel, simplifyQ, dropCollinear, dropCollinearFuel]
  · intro h
    simp only [Geom.lineString.injEq] at h
    have := congrArg List.length h
    simp at this

/-- C7: when point deduplication raises the anticipated invalid-linearring
kernel error, the pipeline retries exactly once with a coordinate-precision
snap at grid size 1e-8 instead of raising; and whenever the deduplicated or
snapped geometry fails its validity check, that result is discarded and the
pre-dedup geometry is used for the Voronoi step. -/
theorem dedup_retry_and_validity_gate (k : Kernel) (gfv : Geom) (ex : PyErr)
    (herr : k.remove_repeated_points gfv tol1e8 = .error ex)
    (hty : ex.ty = "GEOSException")
    (hmsg : containsSub (pyLower ex.msg)
      "invalid number of points in linearring" = true) :
    dedupStage k gfv = k.set_precision gfv tol1e8 ∧
    (∀ d, k.set_precision gfv tol1e8 = .ok d →
      dedupGate k gfv = .ok (if k.is_valid d then d else gfv)) ∧
    (∀ g' d, dedupStage k g' = .ok d → k.is_valid d = false →
      dedupGate k g' = .ok g') := by
  have hstage : dedupStage k gfv = k.set_precision gfv tol1e8 := by
    simp [dedupStage, herr, hty, hmsg]
  refine ⟨hstage, ?_, ?_⟩
  · intro d hd
    simp [dedupGate, hstage, hd]
  · intro g' d hd hv
    simp [dedupGate, hd, hv]

/-- A kernel whose point deduplication always raises the anticipated
invalid-linearring error. -/
def QKernelDedupErr : Kernel := { QKernel with
  remove_repeated_points := fun _ _ =>
    .error ⟨"GEOSException", "invalid number of points in linearring"⟩ }

/-- Witness for C7 at the concrete failing kernel. -/
theorem dedup_retry_witness :
    (QKernelDedupErr.remove_repeated_points (.point (1, 2)) tol1e8
        = .error ⟨"GEOSException", "invalid number of points in linearring"⟩ ∧
      containsSub (pyLower "invalid number of points in linearring")
        "invalid number of points in linearring" = true) ∧
    (dedupStage QKernelDedupErr (.point (1, 2))
        = QKernelDedupErr.set_precision (.point (1, 2)) tol1e8 ∧
      (∀ d, QKernelDedupErr.set_precision (.point (1, 2)) tol1e8 = .ok d →
        dedupGate QKernelDedupErr (.point (1, 2))
          = .ok (if QKernelDedupErr.is_valid d then d else .point (1, 2))) ∧
      (∀ g' d, dedupStage QKernelDedupErr g' = .ok d →
        QKernelDedupErr.is_valid d = false →
        dedupGate QKernelDedupErr g' = .ok g')) :=
  ⟨⟨rfl, by decide⟩,
    dedup_retry_and_validity_gate QKernelDedupErr (.point (1, 2))
      ⟨"GEOSException", "invalid number of points in linearring"⟩ rfl rfl
      (by decide)⟩

/-- A kernel whose Voronoi computation fails on the marker geometry
`POINT(99 99)` with an unanticipated error. -/
def QKernelErr : Kernel := { QKernel with
  voronoi_polygons := fun g _ =>
    match g with
    | .point p =>
      if p = (99, 99) then .error ⟨"GEOSException", "boom"⟩
      else .ok (.multiLineString [[(0, 0), (1, 1)]])
    | _ => .ok (.multiLineString [[(0, 0), (1, 1)]]) }

/-- C8: an exception raised inside the single-polygon pipeline is re-raised
by `_centerline` as an error of the same type whose message is prefixed
with the short textual identification of the offending geometry
(`format_short`: its geometry type and first coordinate); and no error is
swallowed — a successful pipeline run is returned as-is. -/
theorem centerline_error_wrapping (k : Kernel) (g : Geom) (dd mbl : ℚ)
    (st : Option ℚ) (ext : Bool) (hne : isEmptyG g = false) :
    (∀ ex, _centerlineBody k g dd mbl st ext = .error ex →
      _centerline k (some g) dd mbl st ext =
        .error ⟨ex.ty, "Error for geometry " ++ format_short (some g) ++ ": "
          ++ ex.msg⟩) ∧
    (∀ r, _centerlineBody k g dd mbl st ext = .ok r →
      _centerline k (some g) dd mbl st ext = .ok (some r)) := by
  constructor
  · intro ex hex
    simp [_centerline, hne, hex]
  · intro r hr
    simp [_centerline, hne, hr]

/-- Witness for C8 at the concrete failing kernel and geometry. -/
theorem centerline_error_wrapping_witness :
    isEmptyG (Geom.point (99, 99)) = false ∧
    ((∀ ex, _centerlineBody QKernelErr (.point (99, 99)) 0 0 none false
        = .error ex →
      _centerline QKernelErr (some (.point (99, 99))) 0 0 none false =
        .error ⟨ex.ty, "Error for geometry "
          ++ format_short (some (.point (99, 99))) ++ ": " ++ ex.msg⟩) ∧
    (∀ r, _centerlineBody QKernelErr (.point (99, 99)) 0 0 none false = .ok r →
      _centerline QKernelErr (some (.point (99, 99))) 0 0 none false
        = .ok (some r))) :=
  ⟨by decide, centerline_error_wrapping QKernelErr (.point (99, 99)) 0 0 none
    false (by decide)⟩

/-- The unit square, as a polygon ring (closing point repeated): 5
coordinates, perimeter 4, area 1. -/
def sqPoly : Geom := .polygon [(0, 0), (0, 1), (1, 1), (1, 0), (0, 0)] []

/-- C6 (amended): for every polygon with N vertices and every
`densify_distance < 0`, the geometry produced by the densification stage has
at most 11×N vertices, provided the kernel's `segmentize` never produces
more than `ceil(length/max_segment_length)`-many extra vertices beyond one
per original segment (true of the real kernel, which splits each segment of
length `s` into `ceil(s/max_segment_length)` pieces).  The estimated vertex
count `length/max_segment_length` is capped at exactly 10×N by the
`factor_increase` rescaling, and per-segment rounding adds at most one
vertex per original segment, so 10×N on the nose is not guaranteed (see the
counterexample) but 11×N is. -/
theorem densify_cap_eleven (k : Kernel) (geom : Geom) (dd : ℚ) (g : Geom)
    (awo : Option ℚ) (hdd : dd < 0) (hN : 0 < numCoords geom)
    (hseg : ∀ g' m r, 0 < m → k.segmentize g' m = .ok r →
      (numCoords r : ℚ) ≤ (numCoords g' : ℚ) + k.glength g' / m)
    (hok : densifyPrep k geom dd = .ok (g, awo)) :
    numCoords g ≤ 11 * numCoords geom := by
  have hne : dd ≠ 0 := ne_of_lt hdd
  have hnpos : ¬(dd > 0) := by linarith
  have htriv : numCoords geom ≤ 11 * numCoords geom := by omega
  simp only [densifyPrep] at hok
  rw [if_pos hne, if_neg hnpos] at hok
  by_cases hc : _compactness k geom < 1 / 1000
  · rw [if_pos hc] at hok
    norm_num at hok
    rw [← hok.1]
    exact htriv
  · rw [if_neg hc] at hok
    set L := k.glength geom with hL
    set aw := _average_width k geom with haw
    set m0 := |dd| * aw with hm0
    set Nq := ((numCoords geom : ℚ)) with hNq
    have hNqpos : 0 < Nq := by
      rw [hNq]
      exact_mod_cast hN
    by_cases hfi : L / m0 / Nq > 10
    · rw [if_pos hfi] at hok
      simp only at hok
      by_cases hmsl : m0 * (L / m0 / Nq / 10) > 0
      · rw [if_pos hmsl] at hok
        have hm0ne : m0 ≠ 0 := by
          intro h
          rw [h, div_zero, zero_div] at hfi
          linarith
        have hLne : L ≠ 0 := by
          intro h
          rw [h, zero_div, zero_div] at hfi
          linarith
        have hkey : L / (m0 * (L / m0 / Nq / 10)) = 10 * Nq := by
          field_simp
          ring
        cases hs : k.segmentize geom (m0 * (L / m0 / Nq / 10)) with
        | error ex => rw [hs] at hok; cases hok
        | ok r =>
          rw [hs] at hok
          simp only [Except.ok.injEq, Prod.mk.injEq] at hok
          have hb := hseg geom _ r hmsl hs
          rw [hok.1, hkey] at hb
          have hfin : (numCoords g : ℚ) ≤ 11 * Nq := by linarith
          rw [hNq] at hfin
          exact_mod_cast hfin
      · rw [if_neg hmsl] at hok
        norm_num at hok
        rw [← hok.1]
        exact htriv
    · rw [if_neg hfi] at hok
      simp only at hok
      by_cases hmsl : m0 > 0
      · rw [if_pos hmsl] at hok
        have hbound : L / m0 ≤ 10 * Nq := by
          have h1 : L / m0 = L / m0 / Nq * Nq :=
            (div_mul_cancel₀ _ (ne_of_gt hNqpos)).symm
          have h2 : L / m0 / Nq ≤ 10 := le_of_not_lt hfi
          rw [h1]
          exact mul_le_mul_of_nonneg_right h2 (le_of_lt hNqpos)
        cases hs : k.segmentize geom m0 with
        | error ex => rw [hs] at hok; cases hok
        | ok r =>
          rw [hs] at hok
          simp only [Except.ok.injEq, Prod.mk.injEq] at hok
          have hb := hseg geom _ r hmsl hs
          rw [hok.1] at hb
          have hfin : (numCoords g : ℚ) ≤ 11 * Nq := by linarith
          rw [hNq] at hfin
          exact_mod_cast hfin
      · rw [if_neg hmsl] at hok
        norm_num at hok
        rw [← hok.1]
        exact htriv

/-- A kernel whose `segmentize` is the identity and whose length measure is
zero; it trivially satisfies the per-segment densification bound. -/
def QKernelIdSeg : Kernel := { QKernel with
  segmentize := fun g _ => .ok g,
  glength := fun _ => 0 }

/-- Witness for C6 (amended) at a concrete kernel and polygon. -/
theorem densify_cap_eleven_witness :
    ((-1 : ℚ) < 0 ∧ 0 < numCoords sqPoly ∧
      densifyPrep QKernelIdSeg sqPoly (-1) = .ok (sqPoly, none)) ∧
    numCoords sqPoly ≤ 11 * numCoords sqPoly := by
  have hok : densifyPrep QKernelIdSeg sqPoly (-1) = .ok (sqPoly, none) := by
    have hc : _compactness QKernelIdSeg sqPoly < 1 / 1000 := by
      simp [_compactness, QKernelIdSeg, QKernel]
    simp only [densifyPrep]
    rw [if_pos (by norm_num : (-1 : ℚ) ≠ 0),
      if_neg (by norm_num : ¬((-1 : ℚ) > 0)), if_pos hc]
    norm_num
  refine ⟨⟨by norm_num, by decide, hok⟩, ?_⟩
  refine densify_cap_eleven QKernelIdSeg sqPoly (-1) sqPoly none (by norm_num)
    (by decide) ?_ hok
  intro g' m r hm hr
  have hgr : g' = r := Except.ok.inj hr
  subst hgr
  simp [QKernelIdSeg]

/-- Counterexample to C6 as stated: on the unit square (N = 5 vertices) with
`densify_distance = -1/100`, the capped `max_segment_length` is `2/25`, and
segmentizing splits each unit side into `ceil(12.5) = 13` pieces, so the
densified geometry has `4 * 13 + 1 = 53` vertices — more than 10×N = 50.
(The concrete kernel agrees with the double-precision GEOS kernel on this
axis-aligned input.) -/
theorem densify_cap_counterexample :
    (densifyPrep QKernel sqPoly (-1 / 100)).map (fun pr => numCoords pr.1)
        = .ok 53 ∧
    10 * numCoords sqPoly = 50 ∧ ¬(53 ≤ 50) := by
  have hL : QKernel.glength sqPoly = 4 := by
    simp [QKernel, glengthQ, sqPoly, plen, mdist]
    norm_num
  have hA : QKernel.garea sqPoly = 1 := by
    simp [QKernel, gareaQ, sqPoly, ringArea, ringAreaGo]
    norm_num
  have hc : ¬(_compactness QKernel sqPoly < 1 / 1000) := by
    have hb : QKernel.glength (QKernel.boundary sqPoly) = 4 := hL
    rw [_compactness, hb, hA, piQ]
    norm_num
  have haw : _average_width QKernel sqPoly = 1 := by
    rw [_average_width, hL, hA]
    norm_num [QKernel, msqrtQ]
  have hceil : Int.toNat ⌈(1 : ℚ) / (2 / 25)⌉ = 13 := by
    have h13 : ⌈(1 : ℚ) / (2 / 25)⌉ = 13 := by
      rw [Int.ceil_eq_iff]
      constructor <;> norm_num
    rw [h13]
    rfl
  have hsegside : ∀ a b : Point, mdist a b = 1 →
      (segPts a b (2 / 25)).length = 13 := by
    intro a b hab
    simp only [segPts, hab, List.length_map, List.length_range]
    rw [hceil]
    rfl
  have hside1 : mdist ((0 : ℚ), (0 : ℚ)) (0, 1) = 1 := by
    simp [mdist]
  have hside2 : mdist ((0 : ℚ), (1 : ℚ)) (1, 1) = 1 := by
    simp [mdist]
  have hside3 : mdist ((1 : ℚ), (1 : ℚ)) (1, 0) = 1 := by
    simp [mdist]
  have hside4 : mdist ((1 : ℚ), (0 : ℚ)) (0, 0) = 1 := by
    simp [mdist]
  have hdl : (densifyLine [(0, 0), (0, 1), (1, 1), (1, 0), (0, 0)]
      (2 / 25)).length = 53 := by
    simp only [densifyLine, List.zip_cons_cons, List.tail_cons, List.map_cons,
      List.length_append, List.length_flatten, List.map_nil, List.zip_nil_right,
      List.sum_cons, List.sum_nil, List.length_cons, List.length_nil]
    rw [hsegside _ _ hside1, hsegside _ _ hside2, hsegside _ _ hside3,
      hsegside _ _ hside4]
    norm_num
  have hseg : QKernel.segmentize sqPoly (2 / 25)
      = .ok (.polygon (densifyLine [(0, 0), (0, 1), (1, 1), (1, 0), (0, 0)]
          (2 / 25)) []) := by
    simp [QKernel, segmentizeQ, sqPoly]
  have hnum : numCoords (Geom.polygon
      (densifyLine [(0, 0), (0, 1), (1, 1), (1, 0), (0, 0)] (2 / 25)) [])
      = 53 := by
    simp only [numCoords, getCoordinates, List.flatten_nil, List.append_nil,
      List.length_append]
    simpa using hdl
  have hN5 : ((numCoords sqPoly : ℚ)) = 5 := by
    norm_num [numCoords, sqPoly, getCoordinates]
  refine ⟨?_, by decide, by decide⟩
  simp only [densifyPrep]
  rw [if_pos (by norm_num : (-1 / 100 : ℚ) ≠ 0),
    if_neg (by norm_num : ¬((-1 / 100 : ℚ) > 0)), if_neg hc, haw, hL, hN5,
    show |(-1 / 100 : ℚ)| = 1 / 100 by
      rw [abs_of_neg (by norm_num : (-1 / 100 : ℚ) < 0)]
      norm_num]
  norm_num
  rw [hseg]
  simp only [Except.map]
  rw [hnum]

/-! ## C5: sign semantics of `min_branch_length` -/

/-- The lazily cached `average_width` value is always either unset or the
width of the input polygon. -/
def awOk (k : Kernel) (geom : Geom) (o : Option ℚ) : Prop :=
  o = none ∨ o = some (_average_width k geom)

/-- `densifyPrep` only ever caches the polygon's average width. -/
theorem densify_awOk (k : Kernel) (geom : Geom) (dd : ℚ) (g : Geom)
    (o : Option ℚ) (hok : densifyPrep k geom dd = .ok (g, o)) :
    awOk k geom o := by
  unfold awOk
  simp only [densifyPrep] at hok
  iterate 6 all_goals try split at hok
  all_goals
    first
    | (simp only [Except.ok.injEq, Prod.mk.injEq] at hok
       first
       | exact Or.inl hok.2.symm
       | exact Or.inr hok.2.symm)
    | simp at hok

/-- The branch stage treats `min_branch_length = -m` and
`min_branch_length = m * average_width` identically on the pruned lines,
and in both runs the cache stays consistent. -/
theorem branchStage_sign_eq (k : Kernel) (geom lines : Geom) (m : ℚ)
    (o : Option ℚ) (hm : 0 < m) (ho : awOk k geom o) :
    (branchStage k geom lines (-m) o).1
        = (branchStage k geom lines (m * _average_width k geom) o).1 ∧
      awOk k geom (branchStage k geom lines (-m) o).2 ∧
      awOk k geom (branchStage k geom lines
        (m * _average_width k geom) o).2 := by
  have hoaw : o.getD (_average_width k geom) = _average_width k geom := by
    rcases ho with h | h <;> simp [h]
  have hneg : (-m) < 0 := by linarith
  have habs : |(-m)| = m := by
    rw [abs_of_neg hneg]
    ring
  unfold branchStage
  simp only [if_pos hneg, hoaw, habs]
  by_cases hzero : m * _average_width k geom < 0
  · simp only [if_pos hzero, hoaw]
    have h1 : ¬(m * _average_width k geom > 0) := by linarith
    have haw2 : |m * _average_width k geom| * _average_width k geom ≤ 0 := by
      rcases le_or_lt (_average_width k geom) 0 with h | h
      · exact mul_nonpos_iff.mpr (Or.inl ⟨abs_nonneg _, h⟩)
      · nlinarith
    have h2 : ¬(|m * _average_width k geom| * _average_width k geom > 0) := by
      linarith
    simp only [if_neg h1, if_neg h2]
    refine ⟨?_, Or.inr rfl, Or.inr rfl⟩
    first
    | rfl
    | trivial
  · simp only [if_neg hzero]
    refine ⟨?_, Or.inr rfl, ho⟩
    first
    | rfl
    | trivial

/-- The simplify stage's resulting lines only depend on the cached width
through its value, which is fixed by `awOk`. -/
theorem simplifyStage_fst_eq (k : Kernel) (geom lines : Geom)
    (st : Option ℚ) (o1 o2 : Option ℚ) (h1 : awOk k geom o1)
    (h2 : awOk k geom o2) :
    (simplifyStage k geom lines st o1).map Prod.fst
      = (simplifyStage k geom lines st o2).map Prod.fst := by
  have e1 : o1.getD (_average_width k geom) = _average_width k geom := by
    rcases h1 with h | h <;> simp [h]
  have e2 : o2.getD (_average_width k geom) = _average_width k geom := by
    rcases h2 with h | h <;> simp [h]
  cases st with
  | none => simp [simplifyStage, Except.map]
  | some t =>
    unfold simplifyStage
    by_cases ht : t < 0
    · simp only [if_pos ht, e1, e2]
    · simp only [if_neg ht]
      cases k.simplifyOp lines t <;> simp [Except.map]

/-- The single-polygon pipeline body treats `min_branch_length = -m` and
the literal `m * average_width` identically. -/
theorem body_sign_eq (k : Kernel) (geom : Geom) (dd : ℚ) (st : Option ℚ)
    (ext : Bool) (m : ℚ) (hm : 0 < m) :
    _centerlineBody k geom dd (-m) st ext
      = _centerlineBody k geom dd (m * _average_width k geom) st ext := by
  unfold _centerlineBody
  cases hd : densifyPrep k geom dd with
  | error e => rfl
  | ok pr =>
    obtain ⟨gfv, awOpt⟩ := pr
    have hawOk : awOk k geom awOpt := densify_awOk k geom dd gfv awOpt hd
    simp only [bind, Except.bind]
    cases hg : dedupGate k gfv with
    | error e => rfl
    | ok gfv2 =>
      dsimp only
      cases hv : voronoiStage k gfv2 with
      | error e => rfl
      | ok ve =>
        dsimp only
        cases hs : skeletonStage k geom ve with
        | error e => rfl
        | ok lines =>
          dsimp only
          obtain ⟨hfst, ho1, ho2⟩ :=
            branchStage_sign_eq k geom lines m awOpt hm hawOk
          have hsimp := simplifyStage_fst_eq k geom
            (branchStage k geom lines (-m) awOpt).1 st
            (branchStage k geom lines (-m) awOpt).2
            (branchStage k geom lines
              (m * _average_width k geom) awOpt).2 ho1 ho2
          rw [hfst] at hsimp ⊢
          cases hs1 : simplifyStage k geom
              (branchStage k geom lines
                (m * _average_width k geom) awOpt).1 st
              (branchStage k geom lines (-m) awOpt).2 with
          | error e =>
            cases hs2 : simplifyStage k geom
                (branchStage k geom lines
                  (m * _average_width k geom) awOpt).1 st
                (branchStage k geom lines
                  (m * _average_width k geom) awOpt).2 with
            | error e2 =>
              rw [hs1, hs2] at hsimp
              simp only [Except.map, Except.error.injEq] at hsimp
              dsimp only
              rw [hsimp]
            | ok pr2 =>
              rw [hs1, hs2] at hsimp
              simp [Except.map] at hsimp
          | ok pr1 =>
            cases hs2 : simplifyStage k geom
                (branchStage k geom lines
                  (m * _average_width k geom) awOpt).1 st
                (branchStage k geom lines
                  (m * _average_width k geom) awOpt).2 with
            | error e2 =>
              rw [hs1, hs2] at hsimp
              simp [Except.map] at hsimp
            | ok pr2 =>
              rw [hs1, hs2] at hsimp
              simp only [Except.map, Except.ok.injEq] at hsimp
              dsimp only
              rw [hsimp]

/-- C5: for every polygon and every m greater than 0,
`centerline(P, min_branch_length=-m)` behaves identically to
`centerline(P, min_branch_length = m * average_width(P))` passed as a
literal, where `average_width` is the source formula
`P.length/4 - sqrt(max((P.length/4)^2 - P.area, 0))`; and a bulk pruning
pass marks exactly the dangling branches shorter than the threshold (the
in-range edges of length below the threshold whose two endpoint-adjacency
flags differ). -/
theorem min_branch_sign_semantics (k : Kernel) (geom : Geom) (dd : ℚ)
    (st : Option ℚ) (ext : Bool) (m : ℚ) (hm : 0 < m) :
    centerline k (some (.scalar (some geom))) dd (-m) st ext
        = centerline k (some (.scalar (some geom))) dd
          (m * _average_width k geom) st ext ∧
    (∀ (parts : List Geom) (minLen : ℚ) (i : Nat),
      i ∈ passMark k parts minLen false ↔
        ∃ hi : i < parts.length, k.glength parts[i] < minLen ∧
          adjacency k parts i (startPt parts[i]) ≠
            adjacency k parts i (endPt parts[i])) := by
  constructor
  · have hbody := body_sign_eq k geom dd st ext m hm
    have hcl : _centerline k (some geom) dd (-m) st ext
        = _centerline k (some geom) dd (m * _average_width k geom) st ext := by
      simp only [_centerline]
      rw [hbody]
    simp only [centerline, _extract_0dim_ndarray]
    rw [hcl]
  · exact fun parts minLen i => passMark_mem_iff k parts minLen i

/-- Witness for C5 at a concrete kernel, polygon and multiplier. -/
theorem min_branch_sign_semantics_witness :
    (0 : ℚ) < 1 ∧
    (centerline QKernel (some (.scalar (some sqPoly))) 0 (-1) none false
        = centerline QKernel (some (.scalar (some sqPoly))) 0
          (1 * _average_width QKernel sqPoly) none false ∧
    (∀ (parts : List Geom) (minLen : ℚ) (i : Nat),
      i ∈ passMark QKernel parts minLen false ↔
        ∃ hi : i < parts.length, QKernel.glength parts[i] < minLen ∧
          adjacency QKernel parts i (startPt parts[i]) ≠
            adjacency QKernel parts i (endPt parts[i]))) :=
  ⟨by norm_num,
    min_branch_sign_semantics QKernel sqPoly 0 none false 1 (by norm_num)⟩

/-! ## C3 and C9: batch behaviour of the public `centerline` -/

/-- A successful `mapM` over `Except` returns one result per input, in
input order. -/
theorem mapM_ok_spec {α β : Type} (f : α → Except PyErr β) :
    ∀ (gs : List α) (rs : List β), gs.mapM f = .ok rs →
      rs.length = gs.length ∧
        ∀ i (hi : i < gs.length) (hi' : i < rs.length), f gs[i] = .ok rs[i] := by
  intro gs
  induction gs with
  | nil =>
    intro rs h
    simp only [List.mapM_nil, pure, Except.pure, Except.ok.injEq] at h
    subst h
    exact ⟨rfl, fun i hi _ => absurd hi (by simp)⟩
  | cons a as ih =>
    intro rs h
    rw [List.mapM_cons] at h
    cases hfa : f a with
    | error e =>
      rw [hfa] at h
      simp only [bind, Except.bind, pure, Except.pure] at h
      cases h
    | ok b =>
      rw [hfa] at h
      simp only [bind, Except.bind, pure, Except.pure] at h
      cases hAs : as.mapM f with
      | error e =>
        rw [hAs] at h
        simp at h
      | ok bs =>
        rw [hAs] at h
        simp only [Except.ok.injEq] at h
        subst h
        obtain ⟨hlen, hpt⟩ := ih bs hAs
        refine ⟨by simp [hlen], ?_⟩
        intro i hi hi'
        cases i with
        | zero => simpa using hfa
        | succ j =>
          simp only [List.getElem_cons_succ]
          exact hpt j (by simpa using hi) (by simpa using hi')

/-- If every element before position `i` succeeds and element `i` fails,
`mapM` over `Except` fails with element `i`'s error. -/
theorem mapM_error_of_first {α β : Type} (f : α → Except PyErr β) :
    ∀ (gs : List α) (i : Nat) (e : PyErr) (hi : i < gs.length),
      (∀ j (hj : j < gs.length), j < i → ∃ r, f gs[j] = .ok r) →
      f gs[i] = .error e → gs.mapM f = .error e := by
  intro gs
  induction gs with
  | nil => intro i e hi; exact absurd hi (by simp)
  | cons a as ih =>
    intro i e hi hok herr
    rw [List.mapM_cons]
    cases i with
    | zero =>
      simp only [List.getElem_cons_zero] at herr
      simp only [herr, bind, Except.bind]
    | succ j =>
      obtain ⟨r, hr⟩ := hok 0 (by simp) (by omega)
      simp only [List.getElem_cons_zero] at hr
      simp only [List.getElem_cons_succ] at herr
      have htail : as.mapM f = .error e := by
        refine ih j e (by simpa using hi) ?_ herr
        intro j' hj' hj'i
        have := hok (j' + 1) (by simpa using hj') (by omega)
        simpa using this
      simp only [hr, bind, Except.bind, htail]

/-- C3 (amended): when the batch `centerline` hits a failing element, the
whole call raises that element's (wrapped, polygon-identifying) error: the
results of the elements already processed are discarded, not returned, and
later elements are not processed; a failure for one element therefore does
affect the others in the same call. -/
theorem batch_error_aborts (k : Kernel) (dd mbl : ℚ) (st : Option ℚ)
    (ext : Bool) (gs : List (Option Geom)) (i : Nat) (hi : i < gs.length)
    (e : PyErr)
    (hok : ∀ j (hj : j < gs.length), j < i →
      ∃ r, _centerline k gs[j] dd mbl st ext = .ok r)
    (herr : _centerline k gs[i] dd mbl st ext = .error e) :
    centerline k (some (.array gs)) dd mbl st ext = .error e := by
  simp only [centerline, _extract_0dim_ndarray]
  rw [mapM_error_of_first _ gs i e hi hok herr]

/-- Witness for C3 (amended) at a concrete failing batch. -/
theorem batch_error_aborts_witness :
    (_centerline QKernelErr (some (.point (99, 99))) 0 0 none false
        = .error ⟨"GEOSException", "Error for geometry POINT(99 99): boom"⟩) ∧
    centerline QKernelErr
        (some (.array [some (.point (1, 2)), some (.point (99, 99))])) 0 0
        none false
      = .error ⟨"GEOSException", "Error for geometry POINT(99 99): boom"⟩ :=
  ⟨rfl,
    batch_error_aborts QKernelErr 0 0 none false
      [some (.point (1, 2)), some (.point (99, 99))] 1 (by decide)
      ⟨"GEOSException", "Error for geometry POINT(99 99): boom"⟩
      (fun j hj hj1 => by
        have hj0 : j = 0 := by omega
        subst hj0
        exact ⟨some (.lineString [(0, 0), (1, 1)]), rfl⟩)
      rfl⟩

/-- Counterexample to C3 as stated: the same good polygon's result is
returned when it is alone in the batch, but the whole call returns only the
error - and no results at all - once a failing polygon joins the batch, so
results already computed for other polygons are discarded rather than
preserved. -/
theorem batch_error_discards_results :
    centerline QKernelErr (some (.array [some (.point (1, 2))])) 0 0 none false
        = .ok (some (.array [some (.lineString [(0, 0), (1, 1)])])) ∧
    centerline QKernelErr
        (some (.array [some (.point (1, 2)), some (.point (99, 99))])) 0 0
        none false
      = .error ⟨"GEOSException", "Error for geometry POINT(99 99): boom"⟩ :=
  ⟨rfl, rfl⟩

/-- C9: a successful batch `centerline` call returns a collection of the
same length whose i-th element is the centerline of the i-th input
geometry; a GeoSeries input yields a GeoSeries result with the same index
and the same CRS. -/
theorem batch_positional (k : Kernel) (dd mbl : ℚ) (st : Option ℚ)
    (ext : Bool) (gs : List (Option Geom)) :
    (∀ out, centerline k (some (.array gs)) dd mbl st ext = .ok out →
      ∃ rs, out = some (.array rs) ∧ rs.length = gs.length ∧
        ∀ i (hi : i < gs.length) (hi' : i < rs.length),
          _centerline k gs[i] dd mbl st ext = .ok rs[i]) ∧
    (∀ index crs out,
      centerline k (some (.geoseries gs index crs)) dd mbl st ext = .ok out →
      ∃ rs, out = some (.geoseries rs index crs) ∧ rs.length = gs.length ∧
        ∀ i (hi : i < gs.length) (hi' : i < rs.length),
          _centerline k gs[i] dd mbl st ext = .ok rs[i]) := by
  constructor
  · intro out hout
    simp only [centerline, _extract_0dim_ndarray] at hout
    cases hm : gs.mapM
        (fun g => _centerline k g dd mbl st ext) with
    | error e => rw [hm] at hout; cases hout
    | ok rs =>
      rw [hm] at hout
      simp only [Except.ok.injEq] at hout
      obtain ⟨hlen, hpt⟩ := mapM_ok_spec _ gs rs hm
      exact ⟨rs, hout.symm, hlen, hpt⟩
  · intro index crs out hout
    simp only [centerline, _extract_0dim_ndarray] at hout
    cases hm : gs.mapM
        (fun g => _centerline k g dd mbl st ext) with
    | error e => rw [hm] at hout; cases hout
    | ok rs =>
      rw [hm] at hout
      simp only [Except.ok.injEq] at hout
      obtain ⟨hlen, hpt⟩ := mapM_ok_spec _ gs rs hm
      exact ⟨rs, hout.symm, hlen, hpt⟩

/-- Witness for C9 at a concrete one-element batch. -/
theorem batch_positional_witness :
    (centerline QKernel (some (.array [some (.point (1, 2))])) 0 0 none false
        = .ok (some (.array [some (.lineString [(0, 0), (1, 1)])]))) ∧
    (∃ rs, (some (.array [some (.lineString [(0, 0), (1, 1)])])
          : Option GeomOutput) = some (.array rs) ∧
      rs.length = [some (Geom.point (1, 2))].length ∧
      ∀ i (hi : i < [some (Geom.point (1, 2))].length) (hi' : i < rs.length),
        _centerline QKernel [some (Geom.point (1, 2))][i] 0 0 none false
          = .ok rs[i]) :=
  ⟨rfl,
    (batch_positional QKernel 0 0 none false [some (.point (1, 2))]).1
      (some (.array [some (.lineString [(0, 0), (1, 1)])])) rfl⟩

end PyGeoOps
